import Mathlib

/-!
# Verification of the `b64_option_serde` codec (scribe-security/spector)

Shallow embedding of `src/models/helpers/b64_option_serde.rs`: custom serde
functions that represent an `Option<Vec<u8>>` as a standard base64 text node
(or `null`) inside a JSON-like document.

The codec delegates to `base64::engine::general_purpose::STANDARD`
(RFC 4648 §4 alphabet, `=` padding required and canonical, trailing pad
bits must be zero).  That engine is embedded here as `b64Encode` /
`b64Decode` over lists of characters and byte values (`Nat` < 256).
-/

/-- The standard base64 alphabet (RFC 4648 §4) as an index → character
table, mirroring `base64::alphabet::STANDARD`
(`ABCDEFGHIJKLMNOPQRSTUVWXYZabcdefghijklmnopqrstuvwxyz0123456789+/`):
indices 0–25 map to `A`–`Z` (codes 65–90), 26–51 to `a`–`z` (97–122),
52–61 to `0`–`9` (48–57), 62 to `+` and 63 to `/`.  Indices ≥ 64 never
arise in the encoder. -/
def b64Char (i : Nat) : Char :=
  if i < 26 then Char.ofNat (65 + i)
  else if i < 52 then Char.ofNat (71 + i)
  else if i < 62 then Char.ofNat (i - 4)
  else if i = 62 then '+'
  else '/'

/-- The decode table of the standard engine, keyed by the character's code
point: the 6-bit value for the 64 alphabet characters, `none` for
everything else (including `=`, and the URL-safe characters `-`, `_`). -/
def b64Index (c : Char) : Option Nat :=
  if 65 ≤ c.toNat ∧ c.toNat ≤ 90 then some (c.toNat - 65)
  else if 97 ≤ c.toNat ∧ c.toNat ≤ 122 then some (c.toNat - 71)
  else if 48 ≤ c.toNat ∧ c.toNat ≤ 57 then some (c.toNat + 4)
  else if c.toNat = 43 then some 62
  else if c.toNat = 47 then some 63
  else none

/-- `base64::engine::general_purpose::STANDARD.encode`: bytes → characters,
three bytes per four characters, `=`-padded to a multiple of four. -/
def b64Encode : List Nat → List Char
  | [] => []
  | [b0] => [b64Char (b0 / 4), b64Char (b0 % 4 * 16), '=', '=']
  | [b0, b1] => [b64Char (b0 / 4), b64Char (b0 % 4 * 16 + b1 / 16),
                 b64Char (b1 % 16 * 4), '=']
  | b0 :: b1 :: b2 :: rest =>
      b64Char (b0 / 4) :: b64Char (b0 % 4 * 16 + b1 / 16) ::
      b64Char (b1 % 16 * 4 + b2 / 64) :: b64Char (b2 % 64) :: b64Encode rest

/-- Error cases of `base64::DecodeError` produced by the STANDARD engine
(the serde adapter forwards its `Display` message via
`serde::de::Error::custom`). -/
inductive B64DecodeErr where
  | invalidByte
  | invalidLength
  | invalidLastSymbol
  | invalidPadding
deriving DecidableEq

/-- `base64::engine::general_purpose::STANDARD.decode`: the strict decoder.
Its config (`GeneralPurposeConfig::new()`) requires canonical `=` padding
(`DecodePaddingMode::RequireCanonical`), rejects any length that is not a
multiple of four, rejects characters outside the standard alphabet, and
rejects non-zero trailing pad bits (`decode_allow_trailing_bits = false`). -/
def b64Decode : List Char → Except B64DecodeErr (List Nat)
  | [] => .ok []
  | c0 :: c1 :: c2 :: c3 :: rest =>
    match b64Index c0, b64Index c1 with
    | some i0, some i1 =>
      if c2 = '=' then
        if c3 = '=' then
          if rest = [] then
            if i1 % 16 = 0 then .ok [i0 * 4 + i1 / 16]
            else .error .invalidLastSymbol
          else .error .invalidByte
        else .error .invalidPadding
      else
        match b64Index c2 with
        | some i2 =>
          if c3 = '=' then
            if rest = [] then
              if i2 % 4 = 0 then .ok [i0 * 4 + i1 / 16, i1 % 16 * 16 + i2 / 4]
              else .error .invalidLastSymbol
            else .error .invalidByte
          else
            match b64Index c3 with
            | some i3 =>
              match b64Decode rest with
              | .ok bs => .ok ((i0 * 4 + i1 / 16) :: (i1 % 16 * 16 + i2 / 4) ::
                               (i2 % 4 * 64 + i3) :: bs)
              | .error e => .error e
            | none => .error .invalidByte
        | none => .error .invalidByte
    | _, _ => .error .invalidByte
  | _ => .error .invalidLength

/-- A structured-document node (the JSON data model serde reads/writes). -/
inductive Json where
  | null
  | str (s : String)
  | num (n : Int)
  | bool (b : Bool)
  | arr (elems : List Json)
  | obj (fields : List (String × Json))

/-- Errors surfaced by the deserialization path: a base64 failure forwarded
through `serde::de::Error::custom`, or the host framework's rejection of a
node that is neither a string nor null (`Option::<String>::deserialize`). -/
inductive DecodeError where
  | invalidBase64 (e : B64DecodeErr)
  | unexpectedNodeType
deriving DecidableEq

/-- `serialize` from `b64_option_serde.rs`: `Some bytes` becomes the text
node holding `STANDARD.encode(bytes)`; `None` becomes the null node. -/
def serialize (bytes : Option (List Nat)) : Json :=
  match bytes with
  | some bytes => .str (String.mk (b64Encode bytes))
  | none => .null

/-- `deserialize` from `b64_option_serde.rs`: first `Option::<String>`
deserialization (null → `none`, text → the string, any other node shape →
error), then `STANDARD.decode` on the string, errors forwarded. -/
def deserialize (node : Json) : Except DecodeError (Option (List Nat)) :=
  match node with
  | .null => .ok none
  | .str s =>
    match b64Decode s.data with
    | .ok bs => .ok (some bs)
    | .error e => .error (.invalidBase64 e)
  | _ => .error .unexpectedNodeType

/-! ## Alphabet-table lemmas -/

theorem b64Index_b64Char : ∀ i < 64, b64Index (b64Char i) = some i := by
  decide

theorem b64Char_ne_eq : ∀ i < 64, b64Char i ≠ '=' := by
  decide

theorem char_eq_of_toNat {c d : Char} (h : c.toNat = d.toNat) : c = d :=
  Char.ext (UInt32.ext h)

theorem b64Char_b64Index : ∀ c i, b64Index c = some i → b64Char i = c ∧ i < 64 := by
  intro c i h
  simp only [b64Index] at h
  split_ifs at h with h1 h2 h3 h4 h5
  · injection h with h2
    subst h2
    refine ⟨?_, by omega⟩
    unfold b64Char
    rw [if_pos (by omega)]
    have e : 65 + (c.toNat - 65) = c.toNat := by omega
    rw [e, Char.ofNat_toNat]
  · injection h with h2
    subst h2
    refine ⟨?_, by omega⟩
    unfold b64Char
    rw [if_neg (by omega), if_pos (by omega)]
    have e : 71 + (c.toNat - 71) = c.toNat := by omega
    rw [e, Char.ofNat_toNat]
  · injection h with h2
    subst h2
    refine ⟨?_, by omega⟩
    unfold b64Char
    rw [if_neg (by omega), if_neg (by omega), if_pos (by omega)]
    have e : c.toNat + 4 - 4 = c.toNat := by omega
    rw [e, Char.ofNat_toNat]
  · injection h with h2
    subst h2
    refine ⟨?_, by omega⟩
    unfold b64Char
    rw [if_neg (by omega), if_neg (by omega), if_neg (by omega), if_pos rfl]
    exact char_eq_of_toNat (by rw [h4]; rfl)
  · injection h with h2
    subst h2
    refine ⟨?_, by omega⟩
    unfold b64Char
    rw [if_neg (by omega), if_neg (by omega), if_neg (by omega), if_neg (by omega)]
    exact char_eq_of_toNat (by rw [h5]; rfl)

/-! ## Engine round-trip lemmas -/

theorem b64_decode_encode : ∀ b : List Nat, (∀ x ∈ b, x < 256) →
    b64Decode (b64Encode b) = .ok b := by
  intro b
  induction b using b64Encode.induct with
  | case1 => intro _; rfl
  | case2 b0 =>
    intro h
    have hb0 : b0 < 256 := h b0 (by simp)
    have e0 := b64Index_b64Char (b0 / 4) (by omega)
    have e1 := b64Index_b64Char (b0 % 4 * 16) (by omega)
    have m : b0 % 4 * 16 % 16 = 0 := by omega
    simp [b64Encode, b64Decode, e0, e1, m]
    omega
  | case3 b0 b1 =>
    intro h
    have hb0 : b0 < 256 := h b0 (by simp)
    have hb1 : b1 < 256 := h b1 (by simp)
    have e0 := b64Index_b64Char (b0 / 4) (by omega)
    have e1 := b64Index_b64Char (b0 % 4 * 16 + b1 / 16) (by omega)
    have e2 := b64Index_b64Char (b1 % 16 * 4) (by omega)
    have ne2 := b64Char_ne_eq (b1 % 16 * 4) (by omega)
    have m : b1 % 16 * 4 % 4 = 0 := by omega
    simp [b64Encode, b64Decode, e0, e1, e2, ne2, m]
    omega
  | case4 b0 b1 b2 rest ih =>
    intro h
    have hb0 : b0 < 256 := h b0 (by simp)
    have hb1 : b1 < 256 := h b1 (by simp)
    have hb2 : b2 < 256 := h b2 (by simp)
    have ih' := ih (fun x hx => h x (by simp [hx]))
    have e0 := b64Index_b64Char (b0 / 4) (by omega)
    have e1 := b64Index_b64Char (b0 % 4 * 16 + b1 / 16) (by omega)
    have e2 := b64Index_b64Char (b1 % 16 * 4 + b2 / 64) (by omega)
    have e3 := b64Index_b64Char (b2 % 64) (by omega)
    have ne2 := b64Char_ne_eq (b1 % 16 * 4 + b2 / 64) (by omega)
    have ne3 := b64Char_ne_eq (b2 % 64) (by omega)
    simp [b64Encode, b64Decode, e0, e1, e2, e3, ne2, ne3, ih']
    omega

theorem b64_encode_decode : ∀ (l : List Char) (b : List Nat), b64Decode l = .ok b →
    (∀ x ∈ b, x < 256) ∧ b64Encode b = l := by
  intro l
  induction l using b64Decode.induct with
  | case1 =>
    intro b h
    injection h with h
    subst h
    exact ⟨by simp, rfl⟩
  | case2 c0 c1 i0 i1 h1 h0 hm =>
    intro b h
    have ec0 := b64Char_b64Index c0 i0 h0
    have ec1 := b64Char_b64Index c1 i1 h1
    simp [b64Decode, h0, h1, hm] at h
    subst h
    refine ⟨by intro x hx; simp at hx; omega, ?_⟩
    simp only [b64Encode]
    rw [show (i0 * 4 + i1 / 16) / 4 = i0 by omega,
        show (i0 * 4 + i1 / 16) % 4 * 16 = i1 by omega]
    rw [ec0.1, ec1.1]
  | case3 c0 c1 i0 i1 h1 h0 hm =>
    intro b h
    simp [b64Decode, h0, h1, hm] at h
  | case4 c0 c1 rest i0 i1 h1 h0 hne =>
    intro b h
    simp [b64Decode, h0, h1, hne] at h
  | case5 c0 c1 c3 rest i0 i1 h1 h0 hc3 =>
    intro b h
    simp [b64Decode, h0, h1, hc3] at h
  | case6 c0 c1 c2 i0 i1 h1 h0 hc2 i2 h2 hm =>
    intro b h
    have ec0 := b64Char_b64Index c0 i0 h0
    have ec1 := b64Char_b64Index c1 i1 h1
    have ec2 := b64Char_b64Index c2 i2 h2
    simp [b64Decode, h0, h1, h2, hc2, hm] at h
    subst h
    refine ⟨by intro x hx; simp at hx; rcases hx with hx | hx <;> omega, ?_⟩
    simp only [b64Encode]
    rw [show (i0 * 4 + i1 / 16) / 4 = i0 by omega,
        show (i0 * 4 + i1 / 16) % 4 * 16 + (i1 % 16 * 16 + i2 / 4) / 16 = i1 by omega,
        show (i1 % 16 * 16 + i2 / 4) % 16 * 4 = i2 by omega]
    rw [ec0.1, ec1.1, ec2.1]
  | case7 c0 c1 c2 i0 i1 h1 h0 hc2 i2 h2 hm =>
    intro b h
    simp [b64Decode, h0, h1, h2, hc2, hm] at h
  | case8 c0 c1 c2 rest i0 i1 h1 h0 hc2 i2 h2 hne =>
    intro b h
    simp [b64Decode, h0, h1, h2, hc2, hne] at h
  | case9 c0 c1 c2 c3 rest i0 i1 h1 h0 hc2 i2 h2 hc3 i3 h3 bs hrest ih =>
    intro b h
    have ec0 := b64Char_b64Index c0 i0 h0
    have ec1 := b64Char_b64Index c1 i1 h1
    have ec2 := b64Char_b64Index c2 i2 h2
    have ec3 := b64Char_b64Index c3 i3 h3
    obtain ⟨hbs, henc⟩ := ih bs hrest
    simp [b64Decode, h0, h1, h2, h3, hc2, hc3, hrest] at h
    subst h
    constructor
    · intro x hx
      simp at hx
      rcases hx with hx | hx | hx | hx
      · omega
      · omega
      · omega
      · exact hbs x hx
    · simp only [b64Encode]
      rw [show (i0 * 4 + i1 / 16) / 4 = i0 by omega,
          show (i0 * 4 + i1 / 16) % 4 * 16 + (i1 % 16 * 16 + i2 / 4) / 16 = i1 by omega,
          show (i1 % 16 * 16 + i2 / 4) % 16 * 4 + (i2 % 4 * 64 + i3) / 64 = i2 by omega,
          show (i2 % 4 * 64 + i3) % 64 = i3 by omega]
      rw [ec0.1, ec1.1, ec2.1, ec3.1, henc]
  | case10 c0 c1 c2 c3 rest i0 i1 h1 h0 hc2 i2 h2 hc3 i3 h3 e hrest ih =>
    intro b h
    simp [b64Decode, h0, h1, h2, h3, hc2, hc3, hrest] at h
  | case11 c0 c1 c2 c3 rest i0 i1 h1 h0 hc2 i2 h2 hc3 h3 =>
    intro b h
    simp [b64Decode, h0, h1, h2, h3, hc2, hc3] at h
  | case12 c0 c1 c2 c3 rest i0 i1 h1 h0 hc2 h2 =>
    intro b h
    simp [b64Decode, h0, h1, h2, hc2] at h
  | case13 c0 c1 c2 c3 rest hno =>
    intro b h
    rcases hc0 : b64Index c0 with _ | i0 <;> rcases hc1 : b64Index c1 with _ | i1 <;>
      simp [b64Decode, hc0, hc1] at h
    exact (hno i0 i1 hc0 hc1).elim
  | case14 t hnil hcons =>
    intro b h
    rcases t with _ | ⟨a, _ | ⟨a1, _ | ⟨a2, _ | ⟨a3, t⟩⟩⟩⟩
    · exact absurd rfl hnil
    · simp [b64Decode] at h
    · simp [b64Decode] at h
    · simp [b64Decode] at h
    · exact absurd rfl (hcons a a1 a2 a3 t)

/-! ## Remaining definitions used by the claims -/

/-- `(String.mk l).data = l`. -/
theorem string_data_mk (l : List Char) : (String.mk l).data = l := rfl

/-- Well-formed codec input: every byte of a present sequence is an 8-bit
value (the Rust type is `Option<Vec<u8>>`). -/
def WFBytes : Option (List Nat) → Prop
  | none => True
  | some b => ∀ x ∈ b, x < 256

/-- A text's validity in the literal words of the spec sentence: characters
drawn from the standard alphabet in groups of four, `=` padding present and
correct (only at the end, one or two pad characters) and the length a
multiple of four.  (This is the spec's notion, for comparison with the
decoder; it does not require the trailing pad bits to be zero.) -/
def specValidB64 : List Char → Bool
  | [] => true
  | [cc0, cc1, '=', '='] => (b64Index cc0).isSome && (b64Index cc1).isSome
  | [cc0, cc1, cc2, '='] =>
      (b64Index cc0).isSome && (b64Index cc1).isSome && (b64Index cc2).isSome
  | cc0 :: cc1 :: cc2 :: cc3 :: rest =>
      (b64Index cc0).isSome && (b64Index cc1).isSome && (b64Index cc2).isSome &&
      (b64Index cc3).isSome && specValidB64 rest
  | _ => false

/-- The single-field record of the source's tests: `TestStruct` with field
`content : Option<Vec<u8>>` (de)serialized through the codec. -/
structure TestStruct where
  content : Option (List Nat)

/-- Derived serde `Serialize` for `TestStruct`: one-field JSON object whose
`content` value comes from the codec. -/
def encodeTestStruct (t : TestStruct) : Json :=
  Json.obj [("content", serialize t.content)]

/-- Derived serde `Deserialize` for `TestStruct`: expects the one-field
object and routes the `content` value through the codec. -/
def decodeTestStruct : Json → Except DecodeError TestStruct
  | Json.obj [("content", v)] => (deserialize v).map TestStruct.mk
  | _ => .error .unexpectedNodeType

/-- Serializing a sequence of `TestStruct` records (the containing
`Vec<TestStruct>` of the nested test). -/
def encodeSeq (ts : List TestStruct) : Json :=
  Json.arr (ts.map encodeTestStruct)

/-- Deserializing a sequence of `TestStruct` records, elementwise and in
order, failing if any element fails. -/
def decodeSeq : Json → Except DecodeError (List TestStruct)
  | Json.arr elems => elems.mapM decodeTestStruct
  | _ => .error .unexpectedNodeType

/-! ## Claims -/

/-- C1: Round-trip (present): for every byte sequence `b` (each byte an
8-bit value, the empty sequence included), decoding the encoder's output
for `some b` returns `ok (some b)`. -/
theorem roundtrip_present (b : List Nat) (h : ∀ x ∈ b, x < 256) :
    deserialize (serialize (some b)) = .ok (some b) := by
  simp only [serialize, deserialize, string_data_mk, b64_decode_encode b h]

/-- C1 witness: the round-trip at the concrete bytes of "hello" and at the
empty sequence. -/
theorem roundtrip_present_witness :
    deserialize (serialize (some [104, 101, 108, 108, 111])) =
      .ok (some [104, 101, 108, 108, 111]) ∧
    deserialize (serialize (some [])) = .ok (some []) :=
  ⟨roundtrip_present [104, 101, 108, 108, 111] (by decide),
   roundtrip_present [] (by decide)⟩

/-- C3: Null handling: encoding the absent value produces the null node and
decoding the null node returns `ok none` (hence the absent round-trip). -/
theorem null_handling :
    serialize none = Json.null ∧ deserialize Json.null = .ok none ∧
    deserialize (serialize none) = .ok none :=
  ⟨rfl, rfl, rfl⟩

/-- C4: Fixed vectors: `some [104,101,108,108,111]` encodes to the text
node "aGVsbG8=" (whose length is a multiple of four thanks to the `=`
padding), and that text node decodes back to `ok (some [104,101,108,108,111])`. -/
theorem fixed_vectors :
    serialize (some [104, 101, 108, 108, 111]) = Json.str "aGVsbG8=" ∧
    deserialize (Json.str "aGVsbG8=") = .ok (some [104, 101, 108, 108, 111]) ∧
    "aGVsbG8=".length % 4 = 0 :=
  ⟨rfl, rfl, rfl⟩

/-- C2 counterexample: the text "AB==" satisfies every validity condition
named by the claim — standard alphabet, `=` padding present and correct,
length a multiple of four — yet the strict decoder rejects it, because the
four trailing pad bits carried by 'B' are not zero
(`decode_allow_trailing_bits = false` in the STANDARD engine, which fails
with `InvalidLastSymbol`).  So "succeeds iff alphabet/padding/length are
valid" is false in the left-to-right reading of its right-hand side. -/
theorem decode_strictness_cex :
    specValidB64 "AB==".data = true ∧
    deserialize (Json.str "AB==") = .error (.invalidBase64 .invalidLastSymbol) :=
  ⟨rfl, rfl⟩

/-- C2 (amended): decoding a text node succeeds exactly on canonical
standard base64 — standard alphabet, correct `=` padding, valid length and
zero trailing pad bits, i.e. exactly the encoder's outputs; in every other
case it returns an `invalidBase64` error carrying the underlying decoder's
diagnostic (never any other outcome, so no panic and no substituted
value); in particular "not valid base64!", the unpadded "aGVsbG8" and the
URL-safe "-w==" are all rejected. -/
theorem decode_strictness :
    (∀ s : String, (∃ b, deserialize (Json.str s) = .ok (some b)) ↔
        (∃ b, (∀ x ∈ b, x < 256) ∧ String.mk (b64Encode b) = s)) ∧
    (∀ s : String, (∃ b, deserialize (Json.str s) = .ok (some b)) ∨
        (∃ e, deserialize (Json.str s) = .error (.invalidBase64 e))) ∧
    deserialize (Json.str "not valid base64!") = .error (.invalidBase64 .invalidByte) ∧
    deserialize (Json.str "aGVsbG8") = .error (.invalidBase64 .invalidLength) ∧
    deserialize (Json.str "-w==") = .error (.invalidBase64 .invalidByte) := by
  refine ⟨?_, ?_, rfl, rfl, rfl⟩
  · intro s
    constructor
    · rintro ⟨b, hb⟩
      rcases hd : b64Decode s.data with e | bs
      · simp [deserialize, hd] at hb
      · simp [deserialize, hd] at hb
        obtain ⟨hlt, henc⟩ := b64_encode_decode s.data bs hd
        subst hb
        refine ⟨bs, hlt, ?_⟩
        rw [henc]
    · rintro ⟨b, hlt, hs⟩
      subst hs
      exact ⟨b, by simp [deserialize, string_data_mk, b64_decode_encode b hlt]⟩
  · intro s
    rcases hd : b64Decode s.data with e | bs
    · exact Or.inr ⟨e, by simp [deserialize, hd]⟩
    · exact Or.inl ⟨bs, by simp [deserialize, hd]⟩

/-- C2 witness: the amended equivalence instantiated at the accepted text
"aGVsbG8=" and the concrete rejections. -/
theorem decode_strictness_witness :
    ((∃ b, deserialize (Json.str "aGVsbG8=") = .ok (some b)) ↔
      (∃ b, (∀ x ∈ b, x < 256) ∧ String.mk (b64Encode b) = "aGVsbG8=")) ∧
    deserialize (Json.str "not valid base64!") = .error (.invalidBase64 .invalidByte) :=
  ⟨decode_strictness.1 "aGVsbG8=", decode_strictness.2.2.1⟩

/-- C5: node-shape rejection: a node that is neither the null node nor a
text node (number, boolean, array, object) deserializes to the
`unexpectedNodeType` error, and conversely every successful decode came
from the null node or a text node. -/
theorem node_shape_rejection :
    (∀ node : Json, node ≠ Json.null → (∀ s, node ≠ Json.str s) →
        deserialize node = .error .unexpectedNodeType) ∧
    (∀ (node : Json) (v : Option (List Nat)), deserialize node = .ok v →
        node = Json.null ∨ ∃ s, node = Json.str s) := by
  constructor
  · intro node hnull hstr
    cases node with
    | null => exact absurd rfl hnull
    | str s => exact absurd rfl (hstr s)
    | num n => rfl
    | bool b => rfl
    | arr elems => rfl
    | obj fields => rfl
  · intro node v h
    cases node with
    | null => exact Or.inl rfl
    | str s => exact Or.inr ⟨s, rfl⟩
    | num n => exact Except.noConfusion h
    | bool b => exact Except.noConfusion h
    | arr elems => exact Except.noConfusion h
    | obj fields => exact Except.noConfusion h

/-- C5 witness: a boolean node and a number node are rejected with
`unexpectedNodeType`. -/
theorem node_shape_rejection_witness :
    deserialize (Json.bool true) = .error .unexpectedNodeType ∧
    deserialize (Json.num 7) = .error .unexpectedNodeType :=
  ⟨node_shape_rejection.1 (Json.bool true) (fun hh => Json.noConfusion hh)
      (fun _ hh => Json.noConfusion hh),
   node_shape_rejection.1 (Json.num 7) (fun hh => Json.noConfusion hh)
      (fun _ hh => Json.noConfusion hh)⟩

/-- C6: encoder totality: for every input — absent, or present with any
byte sequence — the encoder produces a node (the null node or a text
node); it is a total function and never produces an error. -/
theorem encoder_total (v : Option (List Nat)) :
    serialize v = Json.null ∨ ∃ s, serialize v = Json.str s := by
  cases v with
  | none => exact Or.inl rfl
  | some b => exact Or.inr ⟨String.mk (b64Encode b), rfl⟩

/-- C7: the encoder is injective on well-formed inputs (absent, or present
with 8-bit bytes): distinct inputs produce distinct nodes, so the mapping
absent ↔ null and present bytes ↔ base64 text is a bijection onto the
encoder's image. -/
theorem encode_injective (v1 v2 : Option (List Nat))
    (h1 : WFBytes v1) (h2 : WFBytes v2)
    (h : serialize v1 = serialize v2) : v1 = v2 := by
  cases v1 with
  | none =>
    cases v2 with
    | none => rfl
    | some b2 => exact Json.noConfusion h
  | some b1 =>
    cases v2 with
    | none => exact Json.noConfusion h
    | some b2 =>
      simp only [serialize, Json.str.injEq] at h
      have h2enc : b64Encode b1 = b64Encode b2 := congrArg String.data h
      have e1 := b64_decode_encode b1 h1
      have e2 := b64_decode_encode b2 h2
      rw [h2enc, e2] at e1
      injection e1 with e1
      exact congrArg some e1.symm

/-- C7 witness: injectivity applied at two equal concrete inputs. -/
theorem encode_injective_witness :
    (some [104, 101] : Option (List Nat)) = some [104, 101] :=
  encode_injective (some [104, 101]) (some [104, 101])
    (by intro x hx; simp at hx; omega) (by intro x hx; simp at hx; omega) rfl

/-- C8: composite/nested case: encoding the two-record sequence — first
record with present bytes [104,101,108,108,111], second absent — yields the
document `[{"content":"aGVsbG8="}, {"content":null}]`, and decoding that
document reproduces the original two-element sequence in the same order. -/
theorem nested_roundtrip :
    encodeSeq [⟨some [104, 101, 108, 108, 111]⟩, ⟨none⟩] =
      Json.arr [Json.obj [("content", Json.str "aGVsbG8=")],
                Json.obj [("content", Json.null)]] ∧
    decodeSeq (Json.arr [Json.obj [("content", Json.str "aGVsbG8=")],
                         Json.obj [("content", Json.null)]]) =
      .ok [⟨some [104, 101, 108, 108, 111]⟩, ⟨none⟩] :=
  ⟨rfl, rfl⟩

/-- C9: reverse round-trip (canonical acceptance): whenever decoding a text
node succeeds with `ok (some b)`, re-encoding `some b` reproduces exactly
the same text node — the strict decoder accepts only the canonical padded
encoding of `b`. -/
theorem decode_canonical (s : String) (b : List Nat)
    (h : deserialize (Json.str s) = .ok (some b)) :
    serialize (some b) = Json.str s := by
  rcases hd : b64Decode s.data with e | bs
  · simp [deserialize, hd] at h
  · simp [deserialize, hd] at h
    subst h
    obtain ⟨_, henc⟩ := b64_encode_decode s.data bs hd
    simp only [serialize, henc]

/-- C9 witness: re-encoding the bytes decoded from "aGVsbG8=" gives back
the very text node "aGVsbG8=". -/
theorem decode_canonical_witness :
    serialize (some [104, 101, 108, 108, 111]) = Json.str "aGVsbG8=" :=
  decode_canonical "aGVsbG8=" [104, 101, 108, 108, 111] rfl

/-- C10: empty-bytes edge case: a present empty byte sequence encodes to
the empty text node (distinct from the null node), and the empty text node
decodes back to `ok (some [])`, not to `ok none`. -/
theorem empty_bytes :
    serialize (some []) = Json.str "" ∧
    deserialize (Json.str "") = .ok (some []) ∧
    Json.str "" ≠ Json.null :=
  ⟨rfl, rfl, fun hh => Json.noConfusion hh⟩
